import Mathlib

/-!
Verification of `server.py` of the llm-search MCP server.

The embedding models the three layers of the server:
  * `search_light` — building the outgoing SerpApi request (query text with
    optional location suffix, and the parameter map with `None` values dropped);
  * `crawl_all` — the enrichment orchestrator that batch-fetches the result
    links and attaches extracted markdown to the organic results in place;
  * the content extractor — parse, denylisted-tag removal, markdown conversion.

External effects (the HTTP fetch of the crawler pool, the third-party HTML
parser and markdown converter) are passed in as explicit function arguments,
so the theorems quantify over every possible behaviour of those components.
-/

/-- One organic search result.  The search API supplies `link`, `title` and
`snippet`; `text_content` is absent (`none`) until enrichment attaches it. -/
structure SearchResult where
  link : String
  title : String
  snippet : String
  text_content : Option String := none
deriving Repr, DecidableEq

/-- Python-dict insertion (`d[k] = v`): an existing key keeps its position and
gets the new value, a fresh key is appended. -/
def dictInsert (d : List (String × Nat)) (k : String) (v : Nat) : List (String × Nat) :=
  match d with
  | [] => [(k, v)]
  | (k', v') :: rest => if k' = k then (k, v) :: rest else (k', v') :: dictInsert rest k v

/-- Python-dict lookup (`d[k]`), `none` modelling a `KeyError`. -/
def lookupIdx (d : List (String × Nat)) (u : String) : Option Nat :=
  match d with
  | [] => none
  | (k, v) :: rest => if k = u then some v else lookupIdx rest u

/-- The loop `for idx, res in enumerate(organic_results): url_to_idx[res["link"]] = idx`,
with `i` the index of the first remaining element. -/
def buildAux (d : List (String × Nat)) (i : Nat) : List SearchResult → List (String × Nat)
  | [] => d
  | r :: rest => buildAux (dictInsert d r.link i) (i + 1) rest

/-- `url_to_idx` as built by `crawl_all` (server.py lines 98-100). -/
def buildUrlToIdx (rs : List SearchResult) : List (String × Nat) :=
  buildAux [] 0 rs

/-- `organic_results[i]["text_content"] = md`: in-place update of one result. -/
def setText : List SearchResult → Nat → String → List SearchResult
  | [], _, _ => []
  | r :: rest, 0, md => { r with text_content := some md } :: rest
  | r :: rest, i + 1, md => r :: setText rest i md

/-- The body of the `for url, page_source in page_sources.items()` loop for one
page (server.py lines 105-115): extraction may fail (`ext _ = none`, the caught
exception), the index lookup may fail (`KeyError`, also caught); on success the
result at the mapped index gets the markdown attached. -/
def crawlStep (d : List (String × Nat)) (ext : String → Option String)
    (rs : List SearchResult) (p : String × String) : List SearchResult :=
  match ext p.2 with
  | none => rs
  | some md =>
    match lookupIdx d p.1 with
    | none => rs
    | some i => setText rs i md

/-- Folding the per-page loop over the whole batch response. -/
def crawlFold (d : List (String × Nat)) (ext : String → Option String)
    (pages : List (String × String)) (rs : List SearchResult) : List SearchResult :=
  pages.foldl (crawlStep d ext) rs

/-- `crawl_all` (server.py lines 95-115).  `fetch` models
`crawler_pool.dynamic_crawl_multi_urls`, `ext` the per-page extraction pipeline.
The returned `Bool` is true when an exception escapes `crawl_all`.

Note on the failing-fetch branch: the `except` clause only logs; it does not
bind `page_sources`, so the subsequent `for url, page_source in
page_sources.items()` raises `UnboundLocalError`, which propagates to the
caller.  The results list itself is left unmutated.  This is modelled as
`(organic_results, true)`. -/
def crawl_all (organic_results : List SearchResult)
    (fetch : List String → Except Unit (List (String × String)))
    (ext : String → Option String) : List SearchResult × Bool :=
  if organic_results.isEmpty then (organic_results, false)
  else
    let d := buildUrlToIdx organic_results
    match fetch (d.map Prod.fst) with
    | .error _ => (organic_results, true)
    | .ok pages => (crawlFold d ext pages organic_results, false)

/-- Index of the last result (at offset `i`) whose link is `u`; this is what
the url-to-index dict retains for `u`, since later insertions overwrite. -/
def lastIdxFrom (i : Nat) (u : String) : List SearchResult → Option Nat
  | [] => none
  | r :: rest =>
    match lastIdxFrom (i + 1) u rest with
    | some j => some j
    | none => if r.link = u then some i else none

/-- The markdown written last into result slot `j` by the per-page loop:
the last page whose extraction succeeds and whose url maps to index `j`. -/
def lastTouch (d : List (String × Nat)) (ext : String → Option String) (j : Nat) :
    List (String × String) → Option String
  | [] => none
  | p :: rest =>
    match lastTouch d ext j rest with
    | some md => some md
    | none =>
      match ext p.2 with
      | none => none
      | some md => if lookupIdx d p.1 = some j then some md else none

/-- Applying an optional last write to one result slot. -/
def applyTouch (t : Option String) (r : SearchResult) : SearchResult :=
  match t with
  | none => r
  | some md => { r with text_content := some md }

/-- A value in the outgoing request parameter map. -/
inductive PVal where
  | str (s : String)
  | int (n : Int)
  | bool (b : Bool)
deriving Repr, DecidableEq

/-- The arguments of `search_light` (server.py lines 45-67); every optional
parameter is `none` when the caller did not set it. -/
structure SearchQuery where
  q : String
  location : Option String := none
  safe : Option String := none
  nfpr : Option Nat := none
  filter : Option Nat := none
  start : Option Int := none
  num : Option Int := none
  device : Option String := none
  no_cache : Option Bool := none
  aasync : Option Bool := none
  zero_trace : Option Bool := none
deriving Repr, DecidableEq

/-- `if location: q = q + ", location: %s" % location` (server.py lines 70-71).
An empty string is falsy in Python, so only a non-empty location is appended. -/
def buildQuery (q : String) (location : Option String) : String :=
  match location with
  | none => q
  | some l => if l = "" then q else q ++ ", location: " ++ l

/-- Dropping the `None`-valued entries of the payload dict
(`{k: v for k, v in payload.items() if v is not None}`, server.py line 88),
preserving insertion order. -/
def dropNone (l : List (String × Option PVal)) : List (String × PVal) :=
  l.filterMap (fun kv => kv.2.map (fun v => (kv.1, v)))

/-- The payload dict of `search_light` before `None` removal
(server.py lines 73-86), in insertion order. -/
def search_light_rawPayload (sq : SearchQuery) (apiKey : String) :
    List (String × Option PVal) :=
  [ ("engine", some (PVal.str "google_light")),
    ("q", some (PVal.str (buildQuery sq.q sq.location))),
    ("api_key", some (PVal.str apiKey)),
    ("safe", sq.safe.map PVal.str),
    ("nfpr", sq.nfpr.map (fun n => PVal.int n)),
    ("filter", sq.filter.map (fun n => PVal.int n)),
    ("start", sq.start.map PVal.int),
    ("num", sq.num.map PVal.int),
    ("device", sq.device.map PVal.str),
    ("no_cache", sq.no_cache.map PVal.bool),
    ("async", sq.aasync.map PVal.bool),
    ("zero_trace", sq.zero_trace.map PVal.bool) ]

/-- The parameter map actually sent by `search_light` (server.py lines 73-90). -/
def search_light_payload (sq : SearchQuery) (apiKey : String) : List (String × PVal) :=
  dropNone (search_light_rawPayload sq apiKey)

/-- A top-level value of the raw search response: either the organic-results
list or some other JSON value (kept opaque, tagged to keep values distinct). -/
inductive RVal where
  | results (rs : List SearchResult)
  | other (tag : Nat)
deriving Repr, DecidableEq

/-- Replacing the value stored under key `k`.  `crawl_all` mutates the list
object held by the response dict in place; in the immutable model the value
under `"organic_results"` is replaced by the crawled list. -/
def updateKey (m : List (String × RVal)) (k : String) (v : RVal) : List (String × RVal) :=
  m.map (fun kv => if kv.1 = k then (kv.1, v) else kv)

/-- `{k: v for k, v in search_result.items() if k in ("answer_box", "organic_results")}`
(server.py line 41). -/
def trimResult (m : List (String × RVal)) : List (String × RVal) :=
  m.filter (fun kv => kv.1 = "answer_box" ∨ kv.1 = "organic_results")

/-- The response processing of `llm_search` (server.py lines 36-43), taking the
raw search response as input.  When `crawl` is set, `search_result["organic_results"]`
is read (a missing key raises `KeyError`, a non-list value makes `crawl_all`
raise `TypeError` when enumerating) and `crawl_all` runs; an exception escaping
`crawl_all` fails the whole tool call.  Finally the response is trimmed to the
`answer_box` and `organic_results` keys. -/
def llm_search (raw : List (String × RVal)) (crawl : Bool)
    (fetch : List String → Except Unit (List (String × String)))
    (ext : String → Option String) : Except Unit (List (String × RVal)) :=
  if crawl then
    match List.lookup "organic_results" raw with
    | none => .error ()
    | some (.other _) => .error ()
    | some (.results rs) =>
      let c := crawl_all rs fetch ext
      if c.2 then .error ()
      else .ok (trimResult (updateKey raw "organic_results" (.results c.1)))
  else .ok (trimResult raw)

/-- A node of the parsed document tree (the BeautifulSoup soup): an element
with a tag kind and children, or a text node. -/
inductive HNode where
  | element (kind : String) (children : List HNode)
  | text (s : String)
deriving Repr

/-- The denylist of content-free element kinds removed by `crawl_all`
(server.py line 108): `soup(["nav", "footer", "aside", "script", "style", "form"])`. -/
def denylist : List String := ["nav", "footer", "aside", "script", "style", "form"]

/-- `tag.decompose()` applied to every denylisted tag of the tree: a matching
element is removed together with its whole subtree, the rest is kept with its
children filtered recursively. -/
def stripChildren : List HNode → List HNode
  | [] => []
  | .text s :: ns => .text s :: stripChildren ns
  | .element k cs :: ns =>
    if k ∈ denylist then stripChildren ns
    else .element k (stripChildren cs) :: stripChildren ns

/-- Whether a forest still contains an element of a denylisted kind anywhere. -/
def containsDenylisted : List HNode → Bool
  | [] => false
  | .text _ :: ns => containsDenylisted ns
  | .element k cs :: ns =>
    decide (k ∈ denylist) || containsDenylisted cs || containsDenylisted ns

/-- Modelled from the spec: the third-party pieces of the content extractor
are kept abstract — `parse` stands for `BeautifulSoup(page_source, "html.parser")`
(a total, best-effort parse of arbitrary markup) and `conv` for
`soup.prettify()` followed by `html2text.html2text` (a total structural
conversion of a tree to markdown).  The extractor itself (server.py lines
107-111) is their composition around the denylist removal. -/
def extractContent (parse : String → List HNode) (conv : List HNode → String)
    (page : String) : String :=
  conv (stripChildren (parse page))

/-! ### Association-list lemmas for the payload dict -/

theorem lookup_cons_eq {β : Type} (k : String) (v : β) (l : List (String × β)) :
    List.lookup k ((k, v) :: l) = some v := by
  simp [List.lookup]

theorem lookup_cons_ne {β : Type} (k k' : String) (v : β) (l : List (String × β))
    (h : k ≠ k') : List.lookup k ((k', v) :: l) = List.lookup k l := by
  simp only [List.lookup, beq_false_of_ne h]

theorem dropNone_cons_none (k : String) (l : List (String × Option PVal)) :
    dropNone ((k, none) :: l) = dropNone l := rfl

theorem dropNone_cons_some (k : String) (x : PVal) (l : List (String × Option PVal)) :
    dropNone ((k, some x) :: l) = (k, x) :: dropNone l := rfl

theorem lookup_dropNone_of_not_mem (k : String) (l : List (String × Option PVal))
    (h : k ∉ l.map Prod.fst) : List.lookup k (dropNone l) = none := by
  induction l with
  | nil => rfl
  | cons kv rest ih =>
    simp only [List.map_cons, List.mem_cons] at h
    push_neg at h
    obtain ⟨hk, hrest⟩ := h
    obtain ⟨k', v'⟩ := kv
    cases v' with
    | none => rw [dropNone_cons_none]; exact ih hrest
    | some x =>
      rw [dropNone_cons_some, lookup_cons_ne k k' x _ hk]
      exact ih hrest

theorem lookup_dropNone (k : String) (l : List (String × Option PVal))
    (hnd : (l.map Prod.fst).Nodup) :
    List.lookup k (dropNone l) = Option.join (List.lookup k l) := by
  induction l with
  | nil => rfl
  | cons kv rest ih =>
    obtain ⟨k', v'⟩ := kv
    simp only [List.map_cons, List.nodup_cons] at hnd
    obtain ⟨hk', hrest⟩ := hnd
    by_cases hk : k = k'
    · subst hk
      cases v' with
      | none =>
        rw [dropNone_cons_none, lookup_cons_eq, lookup_dropNone_of_not_mem k rest hk']
        rfl
      | some x =>
        rw [dropNone_cons_some, lookup_cons_eq, lookup_cons_eq]
        rfl
    · cases v' with
      | none =>
        rw [dropNone_cons_none, lookup_cons_ne k k' _ _ hk]
        exact ih hrest
      | some x =>
        rw [dropNone_cons_some, lookup_cons_ne k k' _ _ hk, lookup_cons_ne k k' _ _ hk]
        exact ih hrest

theorem mem_dropNone_key (kv : String × PVal) (l : List (String × Option PVal))
    (h : kv ∈ dropNone l) : kv.1 ∈ l.map Prod.fst := by
  simp only [dropNone, List.mem_filterMap] at h
  obtain ⟨a, ha, hfa⟩ := h
  cases hv : a.2 with
  | none => rw [hv] at hfa; simp at hfa
  | some x =>
    rw [hv] at hfa
    simp only [Option.map_some', Option.some.injEq] at hfa
    subst hfa
    exact List.mem_map_of_mem Prod.fst ha

theorem rawPayload_keys (sq : SearchQuery) (apiKey : String) :
    (search_light_rawPayload sq apiKey).map Prod.fst
      = ["engine", "q", "api_key", "safe", "nfpr", "filter", "start", "num",
         "device", "no_cache", "async", "zero_trace"] := rfl

theorem rawPayload_keys_nodup (sq : SearchQuery) (apiKey : String) :
    ((search_light_rawPayload sq apiKey).map Prod.fst).Nodup := by
  rw [rawPayload_keys]
  decide

/-! ### The url-to-index dict retains the last index for each url -/

theorem dictInsert_lookup (d : List (String × Nat)) (k u : String) (v : Nat) :
    lookupIdx (dictInsert d k v) u = if k = u then some v else lookupIdx d u := by
  induction d with
  | nil => rfl
  | cons kv rest ih =>
    obtain ⟨k', v'⟩ := kv
    by_cases hk : k' = k
    · subst hk
      simp only [dictInsert, if_pos rfl]
      by_cases hu : k' = u
      · simp [lookupIdx, hu]
      · simp [lookupIdx, hu]
    · simp only [dictInsert, if_neg hk]
      by_cases hu : k' = u
      · subst hu
        have hku : ¬k = k' := fun h => hk h.symm
        simp [lookupIdx, if_neg hku]
      · simp only [lookupIdx, if_neg hu]
        exact ih

theorem buildAux_lookup (rs : List SearchResult) (d : List (String × Nat))
    (i : Nat) (u : String) :
    lookupIdx (buildAux d i rs) u
      = ((lastIdxFrom i u rs).or (lookupIdx d u)) := by
  induction rs generalizing d i with
  | nil => rfl
  | cons r rest ih =>
    simp only [buildAux, lastIdxFrom]
    rw [ih]
    cases hrest : lastIdxFrom (i + 1) u rest with
    | some j => rfl
    | none =>
      simp only [Option.none_or]
      rw [dictInsert_lookup]
      by_cases hu : r.link = u
      · simp [hu]
      · simp [hu]

theorem lookupIdx_buildUrlToIdx (rs : List SearchResult) (u : String) :
    lookupIdx (buildUrlToIdx rs) u = lastIdxFrom 0 u rs := by
  rw [buildUrlToIdx, buildAux_lookup]
  cases lastIdxFrom 0 u rs <;> rfl

theorem lastIdxFrom_some (rs : List SearchResult) (i j : Nat) (u : String)
    (h : lastIdxFrom i u rs = some j) :
    ∃ (k : Nat) (r : SearchResult), j = i + k ∧ rs[k]? = some r ∧ r.link = u := by
  induction rs generalizing i with
  | nil => simp [lastIdxFrom] at h
  | cons r rest ih =>
    simp only [lastIdxFrom] at h
    cases hrest : lastIdxFrom (i + 1) u rest with
    | some j' =>
      rw [hrest] at h
      obtain rfl : j' = j := by simpa using h
      obtain ⟨k, r', hk, hget, hlink⟩ := ih (i + 1) hrest
      exact ⟨k + 1, r', by omega, by simpa using hget, hlink⟩
    | none =>
      rw [hrest] at h
      by_cases hu : r.link = u
      · rw [if_pos hu] at h
        obtain rfl : i = j := by simpa using h
        exact ⟨0, r, by omega, List.getElem?_cons_zero, hu⟩
      · rw [if_neg hu] at h
        simp at h

theorem lastIdxFrom_none (rs : List SearchResult) (i : Nat) (u : String)
    (h : ∀ (k : Nat) (r : SearchResult), rs[k]? = some r → r.link ≠ u) :
    lastIdxFrom i u rs = none := by
  induction rs generalizing i with
  | nil => rfl
  | cons r rest ih =>
    simp only [lastIdxFrom]
    rw [ih (i + 1) (fun k r' hk =>
      h (k + 1) r' (by rw [List.getElem?_cons_succ]; exact hk))]
    rw [if_neg (h 0 r List.getElem?_cons_zero)]

theorem lastIdxFrom_last (rs : List SearchResult) (i k : Nat) (u : String)
    (r : SearchResult) (hk : rs[k]? = some r) (hlink : r.link = u)
    (hafter : ∀ (k' : Nat) (r' : SearchResult), k < k' → rs[k']? = some r' → r'.link ≠ u) :
    lastIdxFrom i u rs = some (i + k) := by
  induction rs generalizing i k with
  | nil => simp at hk
  | cons r0 rest ih =>
    simp only [lastIdxFrom]
    cases k with
    | zero =>
      obtain rfl : r0 = r := by
        rw [List.getElem?_cons_zero] at hk
        exact Option.some.inj hk
      rw [lastIdxFrom_none rest (i + 1) u
        (fun k' r' hk' => hafter (k' + 1) r' (by omega)
          (by rw [List.getElem?_cons_succ]; exact hk'))]
      rw [if_pos hlink]
      simp
    | succ k' =>
      rw [ih (i + 1) k' (by rw [List.getElem?_cons_succ] at hk; exact hk)
        (fun k'' r'' hlt hk'' => hafter (k'' + 1) r'' (by omega)
          (by rw [List.getElem?_cons_succ]; exact hk''))]
      have : i + 1 + k' = i + (k' + 1) := by omega
      rw [this]

/-! ### Per-index behaviour of the enrichment fold -/

theorem setText_length (rs : List SearchResult) (i : Nat) (md : String) :
    (setText rs i md).length = rs.length := by
  induction rs generalizing i with
  | nil => rfl
  | cons r rest ih =>
    cases i with
    | zero => rfl
    | succ i' => simp [setText, ih]

theorem setText_getElem? (rs : List SearchResult) (i j : Nat) (md : String) :
    (setText rs i md)[j]? = (rs[j]?).map
      (fun r => if i = j then { r with text_content := some md } else r) := by
  induction rs generalizing i j with
  | nil => simp [setText]
  | cons r rest ih =>
    cases i with
    | zero =>
      cases j with
      | zero => simp [setText]
      | succ j' =>
        simp only [setText, List.getElem?_cons_succ]
        have hne : ∀ x : SearchResult,
            (if 0 = j' + 1 then { x with text_content := some md } else x) = x := by
          intro x
          rw [if_neg (by omega)]
        cases rest[j']? with
        | none => rfl
        | some x => simp [hne]
    | succ i' =>
      cases j with
      | zero =>
        simp only [setText, List.getElem?_cons_zero, Option.map_some']
        rw [if_neg (by omega)]
      | succ j' =>
        simp only [setText, List.getElem?_cons_succ]
        rw [ih]
        by_cases h : i' = j'
        · simp [h]
        · have h2 : ¬(i' + 1 = j' + 1) := by omega
          simp [h, h2]

theorem crawlStep_length (d : List (String × Nat)) (ext : String → Option String)
    (rs : List SearchResult) (p : String × String) :
    (crawlStep d ext rs p).length = rs.length := by
  unfold crawlStep
  cases ext p.2 with
  | none => rfl
  | some md =>
    cases lookupIdx d p.1 with
    | none => rfl
    | some i => exact setText_length rs i md

theorem crawlStep_ext_none (d : List (String × Nat)) (ext : String → Option String)
    (rs : List SearchResult) (p : String × String) (h : ext p.2 = none) :
    crawlStep d ext rs p = rs := by
  unfold crawlStep
  rw [h]

theorem crawlStep_lookup_none (d : List (String × Nat)) (ext : String → Option String)
    (rs : List SearchResult) (p : String × String) (md : String)
    (h1 : ext p.2 = some md) (h2 : lookupIdx d p.1 = none) :
    crawlStep d ext rs p = rs := by
  unfold crawlStep
  rw [h1, h2]

theorem crawlStep_set (d : List (String × Nat)) (ext : String → Option String)
    (rs : List SearchResult) (p : String × String) (md : String) (i : Nat)
    (h1 : ext p.2 = some md) (h2 : lookupIdx d p.1 = some i) :
    crawlStep d ext rs p = setText rs i md := by
  unfold crawlStep
  rw [h1, h2]

theorem crawlFold_cons (d : List (String × Nat)) (ext : String → Option String)
    (p : String × String) (ps : List (String × String)) (rs : List SearchResult) :
    crawlFold d ext (p :: ps) rs = crawlFold d ext ps (crawlStep d ext rs p) := rfl

theorem crawlFold_length (d : List (String × Nat)) (ext : String → Option String)
    (pages : List (String × String)) (rs : List SearchResult) :
    (crawlFold d ext pages rs).length = rs.length := by
  induction pages generalizing rs with
  | nil => rfl
  | cons p ps ih => rw [crawlFold_cons, ih, crawlStep_length]

theorem lastTouch_cons (d : List (String × Nat)) (ext : String → Option String)
    (j : Nat) (p : String × String) (rest : List (String × String)) :
    lastTouch d ext j (p :: rest)
      = match lastTouch d ext j rest with
        | some md => some md
        | none =>
          match ext p.2 with
          | none => none
          | some md => if lookupIdx d p.1 = some j then some md else none := rfl

theorem map_applyTouch_none (o : Option SearchResult) :
    o.map (applyTouch none) = o := by
  cases o <;> rfl

theorem applyTouch_applyTouch (md : String) (t : Option String) (r : SearchResult) :
    applyTouch (some md) (applyTouch t r) = applyTouch (some md) r := by
  cases t <;> rfl

theorem crawlFold_getElem? (d : List (String × Nat)) (ext : String → Option String)
    (pages : List (String × String)) (rs : List SearchResult) (j : Nat) :
    (crawlFold d ext pages rs)[j]?
      = (rs[j]?).map (applyTouch (lastTouch d ext j pages)) := by
  induction pages generalizing rs with
  | nil => exact (map_applyTouch_none rs[j]?).symm
  | cons p ps ih =>
    rw [crawlFold_cons, ih]
    cases hrest : lastTouch d ext j ps with
    | some md =>
      have hcons : lastTouch d ext j (p :: ps) = some md := by
        rw [lastTouch_cons, hrest]
      rw [hcons]
      cases hext : ext p.2 with
      | none => rw [crawlStep_ext_none d ext rs p hext]
      | some md' =>
        cases hlk : lookupIdx d p.1 with
        | none => rw [crawlStep_lookup_none d ext rs p md' hext hlk]
        | some i =>
          rw [crawlStep_set d ext rs p md' i hext hlk, setText_getElem?, Option.map_map]
          cases rs[j]? with
          | none => rfl
          | some r =>
            simp only [Option.map_some', Function.comp]
            by_cases hij : i = j
            · rw [if_pos hij]
              exact congrArg some (applyTouch_applyTouch md (some md') r)
            · rw [if_neg hij]
    | none =>
      cases hext : ext p.2 with
      | none =>
        have hcons : lastTouch d ext j (p :: ps) = none := by
          rw [lastTouch_cons, hrest, hext]
        rw [hcons, crawlStep_ext_none d ext rs p hext, map_applyTouch_none]
      | some md' =>
        cases hlk : lookupIdx d p.1 with
        | none =>
          have hcons : lastTouch d ext j (p :: ps) = none := by
            rw [lastTouch_cons, hrest, hext, hlk]
            simp
          rw [hcons, crawlStep_lookup_none d ext rs p md' hext hlk,
            map_applyTouch_none]
        | some i =>
          rw [crawlStep_set d ext rs p md' i hext hlk, setText_getElem?,
            map_applyTouch_none]
          by_cases hij : i = j
          · have hcons : lastTouch d ext j (p :: ps) = some md' := by
              rw [lastTouch_cons, hrest, hext, hlk]
              simp [hij]
            rw [hcons]
            cases rs[j]? with
            | none => rfl
            | some r => simp [hij, applyTouch]
          · have hcons : lastTouch d ext j (p :: ps) = none := by
              rw [lastTouch_cons, hrest, hext, hlk]
              simp [hij]
            rw [hcons]
            cases rs[j]? with
            | none => rfl
            | some r => simp [hij, applyTouch]

theorem lastTouch_none (d : List (String × Nat)) (ext : String → Option String)
    (j : Nat) (pages : List (String × String))
    (h : ∀ p ∈ pages, lookupIdx d p.1 = some j → ext p.2 = none) :
    lastTouch d ext j pages = none := by
  induction pages with
  | nil => rfl
  | cons p rest ih =>
    rw [lastTouch_cons, ih (fun p' hp' => h p' (List.mem_cons_of_mem p hp'))]
    cases hext : ext p.2 with
    | none => rfl
    | some md =>
      by_cases hlk : lookupIdx d p.1 = some j
      · have hc := h p (List.mem_cons_self p rest) hlk
        rw [hext] at hc
        simp at hc
      · simp [hlk]

theorem lastTouch_some_elim (d : List (String × Nat)) (ext : String → Option String)
    (j : Nat) (pages : List (String × String)) (md : String)
    (h : lastTouch d ext j pages = some md) :
    ∃ p ∈ pages, lookupIdx d p.1 = some j ∧ ext p.2 = some md := by
  induction pages with
  | nil => simp [lastTouch] at h
  | cons p rest ih =>
    rw [lastTouch_cons] at h
    cases hrest : lastTouch d ext j rest with
    | some md' =>
      rw [hrest] at h
      simp only [Option.some.injEq] at h
      subst h
      obtain ⟨p', hp', hl, he⟩ := ih hrest
      exact ⟨p', List.mem_cons_of_mem p hp', hl, he⟩
    | none =>
      rw [hrest] at h
      cases hext : ext p.2 with
      | none => rw [hext] at h; simp at h
      | some md'' =>
        rw [hext] at h
        by_cases hlk : lookupIdx d p.1 = some j
        · simp only [hlk, if_true, reduceIte] at h
          simp only [Option.some.injEq] at h
          subst h
          exact ⟨p, List.mem_cons_self p rest, hlk, hext⟩
        · simp [hlk] at h

theorem lastTouch_last (d : List (String × Nat)) (ext : String → Option String)
    (j : Nat) (pages : List (String × String)) (u s md : String)
    (hnd : (pages.map Prod.fst).Nodup)
    (hmem : (u, s) ∈ pages)
    (hlk : lookupIdx d u = some j)
    (hext : ext s = some md)
    (huniq : ∀ p ∈ pages, lookupIdx d p.1 = some j → p.1 = u) :
    lastTouch d ext j pages = some md := by
  induction pages with
  | nil => simp at hmem
  | cons p rest ih =>
    rw [List.map_cons, List.nodup_cons] at hnd
    rcases List.mem_cons.mp hmem with hhead | htail
    · subst hhead
      have hnone : lastTouch d ext j rest = none := by
        apply lastTouch_none
        intro p' hp' hl'
        exfalso
        have hu' : p'.1 = u := huniq p' (List.mem_cons_of_mem _ hp') hl'
        have hmem' : p'.1 ∈ List.map Prod.fst rest := List.mem_map_of_mem Prod.fst hp'
        rw [hu'] at hmem'
        exact hnd.1 hmem'
      rw [lastTouch_cons, hnone]
      simp [hext, hlk]
    · have := ih hnd.2 htail
        (fun p' hp' hl' => huniq p' (List.mem_cons_of_mem p hp') hl')
      rw [lastTouch_cons, this]

/-- `Nodup` of the link projection separates any two positions. -/
theorem nodup_link_ne (rs : List SearchResult)
    (hnd : (rs.map (fun r => r.link)).Nodup) (i k : Nat) (a b : SearchResult)
    (hik : i ≠ k) (ha : rs[i]? = some a) (hb : rs[k]? = some b) :
    a.link ≠ b.link := by
  intro heq
  have hi : i < rs.length := (List.getElem?_eq_some.mp ha).1
  have hk : k < rs.length := (List.getElem?_eq_some.mp hb).1
  have hil : i < (rs.map (fun r => r.link)).length := by simpa using hi
  have hkl : k < (rs.map (fun r => r.link)).length := by simpa using hk
  have hinj := List.nodup_iff_injective_get.mp hnd
  have hgeti : (rs.map (fun r => r.link)).get ⟨i, hil⟩ = a.link := by
    simp only [List.get_eq_getElem, List.getElem_map]
    have h2 := (List.getElem?_eq_some.mp ha).2
    rw [h2]
  have hgetk : (rs.map (fun r => r.link)).get ⟨k, hkl⟩ = b.link := by
    simp only [List.get_eq_getElem, List.getElem_map]
    have h2 := (List.getElem?_eq_some.mp hb).2
    rw [h2]
  have : (⟨i, hil⟩ : Fin (rs.map (fun r => r.link)).length) = ⟨k, hkl⟩ :=
    hinj (by rw [hgeti, hgetk, heq])
  exact hik (by simpa using this)

/-! ### Claims C3 and C4: the outgoing request -/

/-- Claim C3: the parameter map sent by `search_light` holds each optional
parameter exactly when the caller set it, with exactly the value the caller
set (an unset parameter is absent, never a null), and every key of the map is
one of the twelve known request keys, so no other default is injected. -/
theorem C3_payload_exactly_set_params (sq : SearchQuery) (apiKey : String) :
    List.lookup "safe" (search_light_payload sq apiKey) = sq.safe.map PVal.str ∧
    List.lookup "nfpr" (search_light_payload sq apiKey)
      = sq.nfpr.map (fun n => PVal.int n) ∧
    List.lookup "filter" (search_light_payload sq apiKey)
      = sq.filter.map (fun n => PVal.int n) ∧
    List.lookup "start" (search_light_payload sq apiKey) = sq.start.map PVal.int ∧
    List.lookup "num" (search_light_payload sq apiKey) = sq.num.map PVal.int ∧
    List.lookup "device" (search_light_payload sq apiKey) = sq.device.map PVal.str ∧
    List.lookup "no_cache" (search_light_payload sq apiKey) = sq.no_cache.map PVal.bool ∧
    List.lookup "async" (search_light_payload sq apiKey) = sq.aasync.map PVal.bool ∧
    List.lookup "zero_trace" (search_light_payload sq apiKey)
      = sq.zero_trace.map PVal.bool ∧
    ∀ kv ∈ search_light_payload sq apiKey,
      kv.1 ∈ ["engine", "q", "api_key", "safe", "nfpr", "filter", "start", "num",
              "device", "no_cache", "async", "zero_trace"] := by
  have hnd := rawPayload_keys_nodup sq apiKey
  refine ⟨?_, ?_, ?_, ?_, ?_, ?_, ?_, ?_, ?_, ?_⟩
  all_goals first
  | (intro kv hkv
     have h := mem_dropNone_key kv _ hkv
     rwa [rawPayload_keys] at h)
  | (rw [search_light_payload, lookup_dropNone _ _ hnd]
     simp [search_light_rawPayload, List.lookup])

/-- Claim C4: with a non-empty location `X`, the query text sent out equals
the original query followed by `", location: X"`, and the request carries no
separate `location` parameter. -/
theorem C4_location_appended_to_query (sq : SearchQuery) (apiKey X : String)
    (hloc : sq.location = some X) (hX : X ≠ "") :
    List.lookup "q" (search_light_payload sq apiKey)
      = some (PVal.str (sq.q ++ ", location: " ++ X)) ∧
    List.lookup "location" (search_light_payload sq apiKey) = none := by
  constructor
  · rw [search_light_payload, lookup_dropNone _ _ (rawPayload_keys_nodup sq apiKey)]
    have hq : List.lookup "q" (search_light_rawPayload sq apiKey)
        = some (some (PVal.str (buildQuery sq.q sq.location))) := by
      simp [search_light_rawPayload, List.lookup]
    rw [hq]
    rw [hloc]
    simp [buildQuery, hX]
  · apply lookup_dropNone_of_not_mem
    rw [rawPayload_keys]
    decide

theorem C4_location_appended_to_query_witness :
    List.lookup "q" (search_light_payload { q := "cats", location := some "Paris" } "k")
      = some (PVal.str ("cats" ++ ", location: " ++ "Paris")) ∧
    List.lookup "location" (search_light_payload { q := "cats", location := some "Paris" } "k")
      = none :=
  C4_location_appended_to_query { q := "cats", location := some "Paris" } "k" "Paris"
    rfl (by decide)

/-! ### Claim C5: the trimming invariant of llm_search -/

theorem mem_updateKey_keys (m : List (String × RVal)) (k : String) (v : RVal) :
    (updateKey m k v).map Prod.fst = m.map Prod.fst := by
  induction m with
  | nil => rfl
  | cons kv rest ih =>
    simp only [updateKey, List.map_cons] at *
    by_cases h : kv.1 = k
    · rw [if_pos h]
      simp [ih]
    · rw [if_neg h]
      simp [ih]

theorem mem_trimResult (kv : String × RVal) (m : List (String × RVal)) :
    kv ∈ trimResult m ↔
      kv ∈ m ∧ (kv.1 = "answer_box" ∨ kv.1 = "organic_results") := by
  simp [trimResult, List.mem_filter]

/-- Claim C5: whenever `llm_search` returns a response object, every key of
that object is `answer_box` or `organic_results` and was a key of the raw
search response — all other top-level fields are dropped, whether or not
crawling ran. -/
theorem C5_output_trimmed (raw : List (String × RVal)) (crawl : Bool)
    (fetch : List String → Except Unit (List (String × String)))
    (ext : String → Option String) (out : List (String × RVal))
    (h : llm_search raw crawl fetch ext = Except.ok out) :
    ∀ kv ∈ out, (kv.1 = "answer_box" ∨ kv.1 = "organic_results") ∧
      kv.1 ∈ raw.map Prod.fst := by
  intro kv hkv
  cases crawl with
  | false =>
    simp only [llm_search, if_neg (by simp : ¬False), Bool.false_eq_true, if_false,
      Except.ok.injEq] at h
    subst h
    rw [mem_trimResult] at hkv
    exact ⟨hkv.2, List.mem_map_of_mem Prod.fst hkv.1⟩
  | true =>
    cases hlk : List.lookup "organic_results" raw with
    | none => simp [llm_search, hlk] at h
    | some v =>
      cases v with
      | other t => simp [llm_search, hlk] at h
      | results rs =>
        cases hc : (crawl_all rs fetch ext).2 with
        | true => simp [llm_search, hlk, hc] at h
        | false =>
          simp [llm_search, hlk, hc] at h
          subst h
          rw [mem_trimResult] at hkv
          refine ⟨hkv.2, ?_⟩
          have := List.mem_map_of_mem Prod.fst hkv.1
          rwa [mem_updateKey_keys] at this

theorem C5_output_trimmed_witness :
    (("answer_box" : String) = "answer_box" ∨ ("answer_box" : String) = "organic_results") ∧
    ("answer_box" : String) ∈
      ([("search_metadata", RVal.other 0), ("answer_box", RVal.other 1),
        ("organic_results", RVal.results [])] : List (String × RVal)).map Prod.fst :=
  C5_output_trimmed
    [("search_metadata", RVal.other 0), ("answer_box", RVal.other 1),
     ("organic_results", RVal.results [])]
    false (fun _ => Except.error ()) (fun _ => none)
    [("answer_box", RVal.other 1), ("organic_results", RVal.results [])]
    rfl ("answer_box", RVal.other 1) (by decide)

/-! ### Claims C1 and C10 -/

/-- Claim C1 (code bug): at the concrete input of one result and a fetch engine
that raises, `crawl_all` propagates an exception (`UnboundLocalError` on
`page_sources`) instead of catching the failure and returning; the results list
is left unchanged but the tool call fails. -/
theorem C1_crawl_all_raises_on_fetch_failure :
    crawl_all [{ link := "https://a.example", title := "A", snippet := "sa" }]
      (fun _ => Except.error ()) (fun _ => none)
      = ([{ link := "https://a.example", title := "A", snippet := "sa" }], true) := by
  rfl

/-- Claim C10: with an empty result sequence `crawl_all` returns immediately —
for every fetch engine and extractor the outcome is the unchanged empty list and
no exception, so the batch fetcher is never consulted; and `search_light`
treats an empty-string location like an absent one, leaving the query text
unchanged. -/
theorem C10_empty_results_and_empty_location :
    (∀ (fetch : List String → Except Unit (List (String × String)))
       (ext : String → Option String),
        crawl_all [] fetch ext = ([], false)) ∧
    (∀ q : String, buildQuery q (some "") = q ∧ buildQuery q none = q) := by
  constructor
  · intro fetch ext
    rfl
  · intro q
    constructor
    · rfl
    · rfl

/-! ### Claim C6: enrichment only annotates -/

/-- Claim C6: enrichment keeps exactly the same results in the same order —
for every fetch engine and extractor, the output list has the input's length
and each slot holds either the original result or the original result with
only a `text_content` value attached (link, title and snippet untouched). -/
theorem C6_enrichment_preserves_results (rs : List SearchResult)
    (fetch : List String → Except Unit (List (String × String)))
    (ext : String → Option String) :
    (crawl_all rs fetch ext).1.length = rs.length ∧
    ∀ i : Nat, (crawl_all rs fetch ext).1[i]? = rs[i]? ∨
      ∃ (r : SearchResult) (md : String), rs[i]? = some r ∧
        (crawl_all rs fetch ext).1[i]? = some { r with text_content := some md } := by
  by_cases hempty : rs.isEmpty
  · have hca : crawl_all rs fetch ext = (rs, false) := by
      simp [crawl_all, hempty]
    rw [hca]
    exact ⟨rfl, fun i => Or.inl rfl⟩
  · cases hf : fetch ((buildUrlToIdx rs).map Prod.fst) with
    | error e =>
      have hca : crawl_all rs fetch ext = (rs, true) := by
        simp [crawl_all, hempty, hf]
      rw [hca]
      exact ⟨rfl, fun i => Or.inl rfl⟩
    | ok pages =>
      have hca : crawl_all rs fetch ext
          = (crawlFold (buildUrlToIdx rs) ext pages rs, false) := by
        simp [crawl_all, hempty, hf]
      rw [hca]
      refine ⟨crawlFold_length _ _ _ _, ?_⟩
      intro i
      show (crawlFold (buildUrlToIdx rs) ext pages rs)[i]? = rs[i]? ∨ _
      rw [crawlFold_getElem?]
      cases hri : rs[i]? with
      | none => exact Or.inl rfl
      | some r =>
        cases ht : lastTouch (buildUrlToIdx rs) ext i pages with
        | none => exact Or.inl rfl
        | some md => exact Or.inr ⟨r, md, rfl, rfl⟩

/-! ### Claim C2: duplicate links -/

/-- Claim C2 is false on the code: two results share the link `"u"`, the url
is fetched and extracted successfully, yet only the second (last) result
receives the text — the first one keeps `text_content = none`. -/
theorem C2_counterexample_first_duplicate_gets_no_text :
    ((crawl_all
        [{ link := "u", title := "t0", snippet := "s0" },
         { link := "u", title := "t1", snippet := "s1" }]
        (fun _ => Except.ok [("u", "src")])
        (fun s => if s = "src" then some "MD" else none)).1.map
      (fun r => (r.link, r.text_content)))
      = [("u", none), ("u", some "MD")] := by
  rfl

/-- Claim C2 (amended): when several results carry the same link, the
url-to-index map retains only the last of them, so when that url is fetched
and extracted successfully exactly the last result carrying it receives the
text and every earlier result with the same link is left unchanged. -/
theorem C2_amended_only_retained_duplicate_gets_text
    (rs : List SearchResult)
    (fetch : List String → Except Unit (List (String × String)))
    (ext : String → Option String) (pages : List (String × String))
    (u s md : String) (i j : Nat) (ri rj : SearchResult)
    (hfetch : fetch ((buildUrlToIdx rs).map Prod.fst) = Except.ok pages)
    (hij : i < j)
    (hri : rs[i]? = some ri) (hriu : ri.link = u)
    (hrj : rs[j]? = some rj) (hrju : rj.link = u)
    (hlast : ∀ (k : Nat) (r' : SearchResult), j < k → rs[k]? = some r' → r'.link ≠ u)
    (hpk : (pages.map Prod.fst).Nodup)
    (hmem : (u, s) ∈ pages) (hext : ext s = some md) :
    (crawl_all rs fetch ext).1[i]? = some ri ∧
    (crawl_all rs fetch ext).1[j]? = some { rj with text_content := some md } := by
  have hempty : rs.isEmpty = false := by
    cases rs with
    | nil => simp at hri
    | cons a l => rfl
  have hca : crawl_all rs fetch ext
      = (crawlFold (buildUrlToIdx rs) ext pages rs, false) := by
    simp [crawl_all, hempty, hfetch]
  have hdu : lookupIdx (buildUrlToIdx rs) u = some j := by
    rw [lookupIdx_buildUrlToIdx]
    have h := lastIdxFrom_last rs 0 j u rj hrj hrju hlast
    simpa using h
  have hmaps : ∀ (u' : String) (j' : Nat), lookupIdx (buildUrlToIdx rs) u' = some j' →
      ∃ r', rs[j']? = some r' ∧ r'.link = u' := by
    intro u' j' h
    rw [lookupIdx_buildUrlToIdx] at h
    obtain ⟨k, r', hk, hget, hlink⟩ := lastIdxFrom_some rs 0 j' u' h
    obtain rfl : j' = k := by omega
    exact ⟨r', hget, hlink⟩
  constructor
  · rw [hca]
    show (crawlFold (buildUrlToIdx rs) ext pages rs)[i]? = some ri
    have hnone : lastTouch (buildUrlToIdx rs) ext i pages = none := by
      apply lastTouch_none
      intro p hp hl
      exfalso
      obtain ⟨r', hget, hlink⟩ := hmaps p.1 i hl
      rw [hri] at hget
      obtain rfl : ri = r' := Option.some.inj hget
      rw [hriu] at hlink
      rw [← hlink] at hl
      rw [hdu] at hl
      have := Option.some.inj hl
      omega
    rw [crawlFold_getElem?, hnone, hri]
    rfl
  · rw [hca]
    show (crawlFold (buildUrlToIdx rs) ext pages rs)[j]?
        = some { rj with text_content := some md }
    have hsome : lastTouch (buildUrlToIdx rs) ext j pages = some md := by
      apply lastTouch_last (buildUrlToIdx rs) ext j pages u s md hpk hmem hdu hext
      intro p hp hl
      obtain ⟨r', hget, hlink⟩ := hmaps p.1 j hl
      rw [hrj] at hget
      obtain rfl : rj = r' := Option.some.inj hget
      rw [hrju] at hlink
      exact hlink.symm
    rw [crawlFold_getElem?, hsome, hrj]
    rfl

theorem C2_amended_only_retained_duplicate_gets_text_witness :
    (crawl_all
        [{ link := "u", title := "t0", snippet := "s0" },
         { link := "u", title := "t1", snippet := "s1" }]
        (fun _ => Except.ok [("u", "src")])
        (fun s => if s = "src" then some "MD" else none)).1[0]?
      = some { link := "u", title := "t0", snippet := "s0" } ∧
    (crawl_all
        [{ link := "u", title := "t0", snippet := "s0" },
         { link := "u", title := "t1", snippet := "s1" }]
        (fun _ => Except.ok [("u", "src")])
        (fun s => if s = "src" then some "MD" else none)).1[1]?
      = some { link := "u", title := "t1", snippet := "s1",
               text_content := some "MD" } := by
  apply C2_amended_only_retained_duplicate_gets_text _ _ _ [("u", "src")]
      "u" "src" "MD" 0 1
      { link := "u", title := "t0", snippet := "s0" }
      { link := "u", title := "t1", snippet := "s1" }
      rfl (by omega) rfl rfl rfl rfl ?_ (by decide) (by decide) rfl
  intro k r' hk hr'
  have hlen : ([{ link := "u", title := "t0", snippet := "s0" },
                { link := "u", title := "t1", snippet := "s1" }] :
      List SearchResult).length ≤ k := by
    simp only [List.length_cons, List.length_nil]
    omega
  rw [List.getElem?_eq_none hlen] at hr'
  exact absurd hr' (by simp)

/-! ### Claim C7: subset fetch -/

/-- Claim C7 is false on the code as stated: with two results sharing the link
`"v"`, the fetched set S is `{"v"}` and extraction succeeds, yet the first
result — whose link is in S — carries no `text_content` after enrichment. -/
theorem C7_counterexample_duplicate_link_in_S_without_text :
    ((crawl_all
        [{ link := "v", title := "ta", snippet := "sa" },
         { link := "v", title := "tb", snippet := "sb" }]
        (fun _ => Except.ok [("v", "page")])
        (fun _ => some "MV")).1.map
      (fun r => (r.link, r.text_content)))
      = [("v", none), ("v", some "MV")] := by
  rfl

/-- Claim C7 (amended): provided the results carry pairwise-distinct links
(and start without text), after a fetch that returns page sources for a
subset S of the urls, exactly the results whose link is in S with a
successful extraction carry a `text_content`, every result whose link is
absent from S is unchanged, and no exception escapes. -/
theorem C7_amended_subset_fetch_exactly_enriched (rs : List SearchResult)
    (fetch : List String → Except Unit (List (String × String)))
    (ext : String → Option String) (pages : List (String × String))
    (hnd : (rs.map (fun r => r.link)).Nodup)
    (hfresh : ∀ r ∈ rs, r.text_content = none)
    (hfetch : fetch ((buildUrlToIdx rs).map Prod.fst) = Except.ok pages)
    (hpk : (pages.map Prod.fst).Nodup) :
    (crawl_all rs fetch ext).2 = false ∧
    ∀ (i : Nat) (ri r' : SearchResult), rs[i]? = some ri →
      (crawl_all rs fetch ext).1[i]? = some r' →
      ((r'.text_content.isSome = true) ↔
        ∃ p ∈ pages, p.1 = ri.link ∧ (ext p.2).isSome = true) ∧
      ((∀ p ∈ pages, p.1 ≠ ri.link) → r' = ri) := by
  by_cases hempty : rs.isEmpty
  · have hca : crawl_all rs fetch ext = (rs, false) := by
      simp [crawl_all, hempty]
    rw [hca]
    refine ⟨rfl, ?_⟩
    intro i ri r' hri hr'
    rw [List.isEmpty_iff] at hempty
    subst hempty
    simp at hri
  · have hca : crawl_all rs fetch ext
        = (crawlFold (buildUrlToIdx rs) ext pages rs, false) := by
      simp [crawl_all, hempty, hfetch]
    rw [hca]
    refine ⟨rfl, ?_⟩
    intro i ri r' hri hr'
    have hmaps : ∀ (u' : String) (j' : Nat), lookupIdx (buildUrlToIdx rs) u' = some j' →
        ∃ r'', rs[j']? = some r'' ∧ r''.link = u' := by
      intro u' j' h
      rw [lookupIdx_buildUrlToIdx] at h
      obtain ⟨k, r'', hk, hget, hlink⟩ := lastIdxFrom_some rs 0 j' u' h
      obtain rfl : j' = k := by omega
      exact ⟨r'', hget, hlink⟩
    have hdi : lookupIdx (buildUrlToIdx rs) ri.link = some i := by
      rw [lookupIdx_buildUrlToIdx]
      have h := lastIdxFrom_last rs 0 i ri.link ri hri rfl
        (fun k' r'' hlt hget =>
          nodup_link_ne rs hnd k' i r'' ri (by omega) hget hri)
      simpa using h
    have huniq : ∀ p ∈ pages, lookupIdx (buildUrlToIdx rs) p.1 = some i →
        p.1 = ri.link := by
      intro p hp hl
      obtain ⟨r'', hget, hlink⟩ := hmaps p.1 i hl
      rw [hri] at hget
      obtain rfl : ri = r'' := Option.some.inj hget
      exact hlink.symm
    rw [show ((crawlFold (buildUrlToIdx rs) ext pages rs, false) :
        List SearchResult × Bool).1 = crawlFold (buildUrlToIdx rs) ext pages rs
      from rfl] at hr'
    rw [crawlFold_getElem?, hri] at hr'
    by_cases hex : ∃ p ∈ pages, p.1 = ri.link ∧ (ext p.2).isSome = true
    · obtain ⟨p0, hp0, hl0, hs0⟩ := hex
      obtain ⟨md, hmd⟩ := Option.isSome_iff_exists.mp hs0
      have hsome : lastTouch (buildUrlToIdx rs) ext i pages = some md := by
        apply lastTouch_last (buildUrlToIdx rs) ext i pages p0.1 p0.2 md hpk
        · rw [Prod.mk.eta]
          exact hp0
        · rw [hl0]
          exact hdi
        · exact hmd
        · intro p hp hl
          rw [huniq p hp hl, hl0]
      rw [hsome] at hr'
      have hr'' : r' = applyTouch (some md) ri := (Option.some.inj hr').symm
      subst hr''
      constructor
      · constructor
        · intro _
          exact ⟨p0, hp0, hl0, hs0⟩
        · intro _
          rfl
      · intro habs
        exact absurd hl0 (habs p0 hp0)
    · push_neg at hex
      have hnone : lastTouch (buildUrlToIdx rs) ext i pages = none := by
        apply lastTouch_none
        intro p hp hl
        have hplink : p.1 = ri.link := huniq p hp hl
        have := hex p hp hplink
        cases hpe : ext p.2 with
        | none => rfl
        | some v => rw [hpe] at this; simp at this
      rw [hnone] at hr'
      have hr'' : r' = ri := (Option.some.inj hr').symm
      have hfreshi : ri.text_content = none := hfresh ri (List.getElem?_mem hri)
      rw [hr'', hfreshi]
      constructor
      · constructor
        · intro hfalse
          simp at hfalse
        · rintro ⟨p, hp, hpl, hps⟩
          exact absurd hps (by simpa using hex p hp hpl)
      · intro _
        rfl

theorem C7_amended_subset_fetch_exactly_enriched_witness :
    (crawl_all
        [{ link := "a", title := "A", snippet := "sa" },
         { link := "b", title := "B", snippet := "sb" }]
        (fun _ => Except.ok [("a", "pa")])
        (fun s => if s = "pa" then some "MA" else none)).2 = false :=
  (C7_amended_subset_fetch_exactly_enriched
    [{ link := "a", title := "A", snippet := "sa" },
     { link := "b", title := "B", snippet := "sb" }]
    (fun _ => Except.ok [("a", "pa")])
    (fun s => if s = "pa" then some "MA" else none)
    [("a", "pa")]
    (by decide) (by decide) rfl (by decide)).1

/-! ### Claim C8: a failing extraction is isolated -/

/-- Claim C8: a page whose extraction raises is simply skipped — running
`crawl_all` on a batch containing such a page gives exactly the same outcome
(same enriched results, no exception) as running it on the batch without that
page, so every other page is still processed and the tool call succeeds. -/
theorem C8_extraction_failure_isolated (rs : List SearchResult)
    (fetch fetch' : List String → Except Unit (List (String × String)))
    (ext : String → Option String)
    (l1 l2 : List (String × String)) (u0 s0 : String)
    (hne : rs.isEmpty = false)
    (hf : fetch ((buildUrlToIdx rs).map Prod.fst) = Except.ok (l1 ++ (u0, s0) :: l2))
    (hf' : fetch' ((buildUrlToIdx rs).map Prod.fst) = Except.ok (l1 ++ l2))
    (hext : ext s0 = none) :
    (crawl_all rs fetch ext).2 = false ∧
    crawl_all rs fetch ext = crawl_all rs fetch' ext := by
  have h1 : crawl_all rs fetch ext
      = (crawlFold (buildUrlToIdx rs) ext (l1 ++ (u0, s0) :: l2) rs, false) := by
    simp [crawl_all, hne, hf]
  have h2 : crawl_all rs fetch' ext
      = (crawlFold (buildUrlToIdx rs) ext (l1 ++ l2) rs, false) := by
    simp [crawl_all, hne, hf']
  rw [h1, h2]
  refine ⟨rfl, ?_⟩
  unfold crawlFold
  rw [List.foldl_append, List.foldl_append, List.foldl_cons]
  rw [crawlStep_ext_none (buildUrlToIdx rs) ext _ (u0, s0) hext]

theorem C8_extraction_failure_isolated_witness :
    (crawl_all [{ link := "w", title := "W", snippet := "sw" }]
      (fun _ => Except.ok [("w", "bad")]) (fun _ => none)).2 = false :=
  (C8_extraction_failure_isolated
    [{ link := "w", title := "W", snippet := "sw" }]
    (fun _ => Except.ok [("w", "bad")])
    (fun _ => Except.ok [])
    (fun _ => none) [] [] "w" "bad"
    rfl rfl rfl rfl).1

/-! ### Claim C9: the content extractor -/

theorem stripChildren_no_denylisted (ns : List HNode) :
    containsDenylisted (stripChildren ns) = false := by
  induction ns using stripChildren.induct with
  | case1 => simp [stripChildren, containsDenylisted]
  | case2 s ns ih => simp [stripChildren, containsDenylisted, ih]
  | case3 k cs ns hk ih => simp [stripChildren, containsDenylisted, hk, ih]
  | case4 k cs ns hk ih1 ih2 =>
    simp [stripChildren, containsDenylisted, hk, ih1, ih2]

/-- Claim C9: the content extractor is a total function of the raw markup
(it never raises — any parse and any converter yield a result for every
input string), and the tree handed to the markdown conversion step contains
no element of a denylisted kind (nav, footer, aside, script, style, form):
every such element was decomposed together with its subtree. -/
theorem C9_extractor_denylist_removed_before_conversion
    (parse : String → List HNode) (conv : List HNode → String) (page : String) :
    extractContent parse conv page = conv (stripChildren (parse page)) ∧
    containsDenylisted (stripChildren (parse page)) = false :=
  ⟨rfl, stripChildren_no_denylisted (parse page)⟩
